import Mathlib

/-! # A proof-of-work hash chain (`main.go`)

A shallow embedding of the Go program: the block and chain types, the digest
of a block (`GenerateHash`), the difficulty predicate (`IsValidHashDifficulty`),
the mining loop of `NewBlock`, `AddBlock` and `Valid`.

Conventions.
* A Go `[]byte` and a Go `string` are both a list of bytes; the conversions
  `string(b)` and `[]byte(s)` copy the bytes unchanged.
* `int64` and `int32` values are integers; the `int32` increment wraps
  (`wrapInt32`).
* `time.Now().Unix()` and `generaNonce()` read the clock and the random source;
  their results are arguments (`now`, `seed`) of the functions that call them.
* The `for` loop of `NewBlock` has no bound; it is run with a fuel argument that
  counts the evaluations of the loop condition, `none` meaning that the loop is
  still running when the fuel is spent.
* A run-time panic is the `error` result of `AddBlock`.
-/

namespace Blockchain

/-- A byte. -/
abbrev Byte := Fin 256

/-- A byte sequence: a Go `[]byte` or `string`. -/
abbrev Bytes := List Byte

/-- The byte with value `n % 256`. -/
def toByte (n : Nat) : Byte := ⟨n % 256, Nat.mod_lt n (by decide)⟩

/-! ## `crypto/sha256`: SHA-256 as in FIPS 180-4, on 32-bit words held in `Nat` -/

namespace SHA256

/-- Addition modulo `2^32`. -/
def add32 (a b : Nat) : Nat := (a + b) % 4294967296

/-- Rotate the 32-bit word `x` right by `n` bits. -/
def rotr (n x : Nat) : Nat := ((x >>> n) ||| (x <<< (32 - n))) % 4294967296

/-- Shift right by `n` bits. -/
def shr (n x : Nat) : Nat := x >>> n

/-- The function Ch: the bits of `f` where `e` is set, of `g` elsewhere. -/
def ch (e f g : Nat) : Nat := (e &&& f) ^^^ ((e ^^^ 4294967295) &&& g)

/-- The majority function Maj. -/
def maj (a b c : Nat) : Nat := (a &&& b) ^^^ (a &&& c) ^^^ (b &&& c)

/-- The function written with a capital sigma, index 0. -/
def bigSigma0 (x : Nat) : Nat := rotr 2 x ^^^ rotr 13 x ^^^ rotr 22 x

/-- The function written with a capital sigma, index 1. -/
def bigSigma1 (x : Nat) : Nat := rotr 6 x ^^^ rotr 11 x ^^^ rotr 25 x

/-- The function written with a small sigma, index 0. -/
def smallSigma0 (x : Nat) : Nat := rotr 7 x ^^^ rotr 18 x ^^^ shr 3 x

/-- The function written with a small sigma, index 1. -/
def smallSigma1 (x : Nat) : Nat := rotr 17 x ^^^ rotr 19 x ^^^ shr 10 x

/-- The 64 round constants. -/
def K : List Nat :=
  [0x428a2f98, 0x71374491, 0xb5c0fbcf, 0xe9b5dba5, 0x3956c25b, 0x59f111f1, 0x923f82a4, 0xab1c5ed5,
   0xd807aa98, 0x12835b01, 0x243185be, 0x550c7dc3, 0x72be5d74, 0x80deb1fe, 0x9bdc06a7, 0xc19bf174,
   0xe49b69c1, 0xefbe4786, 0x0fc19dc6, 0x240ca1cc, 0x2de92c6f, 0x4a7484aa, 0x5cb0a9dc, 0x76f988da,
   0x983e5152, 0xa831c66d, 0xb00327c8, 0xbf597fc7, 0xc6e00bf3, 0xd5a79147, 0x06ca6351, 0x14292967,
   0x27b70a85, 0x2e1b2138, 0x4d2c6dfc, 0x53380d13, 0x650a7354, 0x766a0abb, 0x81c2c92e, 0x92722c85,
   0xa2bfe8a1, 0xa81a664b, 0xc24b8b70, 0xc76c51a3, 0xd192e819, 0xd6990624, 0xf40e3585, 0x106aa070,
   0x19a4c116, 0x1e376c08, 0x2748774c, 0x34b0bcb5, 0x391c0cb3, 0x4ed8aa4a, 0x5b9cca4f, 0x682e6ff3,
   0x748f82ee, 0x78a5636f, 0x84c87814, 0x8cc70208, 0x90befffa, 0xa4506ceb, 0xbef9a3f7, 0xc67178f2]

/-- The eight working variables, also the chaining value between blocks. -/
structure State where
  a : Nat
  b : Nat
  c : Nat
  d : Nat
  e : Nat
  f : Nat
  g : Nat
  h : Nat
deriving DecidableEq, Repr

/-- The initial hash value. -/
def init : State :=
  ⟨0x6a09e667, 0xbb67ae85, 0x3c6ef372, 0xa54ff53a, 0x510e527f, 0x9b05688c, 0x1f83d9ab, 0x5be0cd19⟩

/-- The padded message: the message, the byte `0x80`, zero bytes up to 56 modulo 64, and the
    length of the message in bits as 8 big-endian bytes. -/
def pad (m : List Nat) : List Nat :=
  let bits := 8 * m.length
  m ++ 128 :: List.replicate ((119 - m.length % 64) % 64) 0 ++
    [(bits >>> 56) % 256, (bits >>> 48) % 256, (bits >>> 40) % 256, (bits >>> 32) % 256,
     (bits >>> 24) % 256, (bits >>> 16) % 256, (bits >>> 8) % 256, bits % 256]

/-- Big-endian 32-bit words of a byte list, four bytes each. -/
def toWords : List Nat → List Nat
  | b0 :: b1 :: b2 :: b3 :: rest => (b0 * 16777216 + b1 * 65536 + b2 * 256 + b3) :: toWords rest
  | _ => []

/-- The message schedule: from a window of the 16 latest words, the next `n` words in order. -/
def schedule : Nat → List Nat → List Nat
  | n + 1, [w0, w1, w2, w3, w4, w5, w6, w7, w8, w9, w10, w11, w12, w13, w14, w15] =>
      w0 :: schedule n [w1, w2, w3, w4, w5, w6, w7, w8, w9, w10, w11, w12, w13, w14, w15,
        add32 (add32 (add32 (smallSigma1 w14) w9) (smallSigma0 w1)) w0]
  | _, _ => []

/-- One round, with its round constant and schedule word. -/
def round (s : State) (kw : Nat × Nat) : State :=
  let t1 := add32 (add32 (add32 (add32 s.h (bigSigma1 s.e)) (ch s.e s.f s.g)) kw.1) kw.2
  let t2 := add32 (bigSigma0 s.a) (maj s.a s.b s.c)
  ⟨add32 t1 t2, s.a, s.b, s.c, add32 s.d t1, s.e, s.f, s.g⟩

/-- The compression function on one 64-byte block. -/
def compress (s : State) (block : List Nat) : State :=
  let r := (K.zip (schedule 64 (toWords block))).foldl round s
  ⟨add32 s.a r.a, add32 s.b r.b, add32 s.c r.c, add32 s.d r.d,
   add32 s.e r.e, add32 s.f r.f, add32 s.g r.g, add32 s.h r.h⟩

/-- Compress the first `n` 64-byte blocks of a byte list. -/
def blocks : Nat → List Nat → State → State
  | 0, _, s => s
  | n + 1, bs, s => blocks n (bs.drop 64) (compress s (bs.take 64))

/-- The four big-endian bytes of a 32-bit word. -/
def wordBytes (w : Nat) : Bytes :=
  [toByte (w >>> 24), toByte (w >>> 16), toByte (w >>> 8), toByte w]

/-- The function `sha256.Sum256`: the 32-byte digest of a byte sequence. -/
def Sum256 (data : Bytes) : Bytes :=
  let p := pad (data.map Fin.val)
  let s := blocks (p.length / 64) p init
  wordBytes s.a ++ wordBytes s.b ++ wordBytes s.c ++ wordBytes s.d ++
    wordBytes s.e ++ wordBytes s.f ++ wordBytes s.g ++ wordBytes s.h

end SHA256

/-! ## `strconv` and `cast`: decimal strings -/

/-- The digit loop of `strconv.FormatInt` in base 10 on the magnitude `u`: the least
    significant digit is written first, in front of what is already there. -/
def formatBits : Nat → Nat → Bytes → Bytes
  | 0, _, acc => acc
  | fuel + 1, u, acc =>
      if u < 10 then toByte (48 + u) :: acc
      else formatBits fuel (u / 10) (toByte (48 + u % 10) :: acc)

/-- The function `strconv.FormatInt(i, 10)`: the digits of the magnitude, after `-` when `i` is
    negative. It is what `cast.ToString` returns for an `int64` and for an `int32`. -/
def FormatInt (i : Int) : Bytes :=
  if i < 0 then 45 :: formatBits (i.natAbs + 1) i.natAbs []
  else formatBits (i.natAbs + 1) i.natAbs []

/-- The `int32` value with the same low 32 bits as `x`: what `int32` arithmetic keeps of a result. -/
def wrapInt32 (x : Int) : Int := (x + 2147483648) % 4294967296 - 2147483648

/-- The values of type `int32`. -/
def isInt32 (x : Int) : Prop := -2147483648 ≤ x ∧ x < 2147483648

instance (x : Int) : Decidable (isInt32 x) := by unfold isInt32; infer_instance

/-! ## The program -/

/-- The type `Block`. -/
structure Block where
  Timestamp : Int
  Data : Bytes
  PrevBlockHash : Bytes
  Hash : Bytes
  Nonce : Int
deriving DecidableEq, Repr

/-- The type `BlockChain`; a block pointer of the slice is the block it points to. -/
structure BlockChain where
  blocks : List Block
  currentBlock : Bytes
deriving DecidableEq, Repr

/-- The method `GenerateHash`: SHA-256 of the string
    `cast.ToString(b.Timestamp) + cast.ToString(b.Nonce) + string(b.Data) + string(b.PrevBlockHash)`. -/
def GenerateHash (b : Block) : Bytes :=
  let data := FormatInt b.Timestamp ++ FormatInt b.Nonce ++ b.Data ++ b.PrevBlockHash
  let hash := SHA256.Sum256 data
  hash

/-- The function `strings.Repeat`. -/
def Repeat (s : Bytes) (count : Nat) : Bytes := (List.replicate count s).flatten

/-- The function `strings.HasPrefix`: `len(s) >= len(prefix) && s[:len(prefix)] == prefix`. -/
def HasPrefix (s pre : Bytes) : Bool :=
  decide (pre.length ≤ s.length) && (s.take pre.length == pre)

/-- The function `IsValidHashDifficulty`: the hash, read as a string, starts with `"0000"`. -/
def IsValidHashDifficulty (hash : Bytes) : Bool :=
  let difficultyPrefix := Repeat [48] 4
  HasPrefix hash difficultyPrefix

/-- The function `CheckProofOfWork`: the digest recomputed from the block's fields meets the
    difficulty. -/
def CheckProofOfWork (block : Block) : Bool :=
  let blockHash := GenerateHash block
  if !IsValidHashDifficulty blockHash then false else true

/-- The loop body `block.Nonce++`, an `int32` increment. -/
def incrNonce (block : Block) : Block := { block with Nonce := wrapInt32 (block.Nonce + 1) }

/-- The loop `for !CheckProofOfWork(block) { block.Nonce++ }`, with `fuel` evaluations of the
    condition; `none` when the condition has not held within them. -/
def mine : Nat → Block → Option Block
  | 0, _ => none
  | fuel + 1, block =>
      if !CheckProofOfWork block then mine fuel (incrNonce block) else some block

/-- The function `NewBlock`, with `now` for `time.Now().Unix()` and `seed` for `generaNonce()`. -/
def NewBlock (fuel : Nat) (now seed : Int) (data prevHash : Bytes) : Option Block :=
  let block : Block :=
    { Timestamp := now, Data := data, PrevBlockHash := prevHash, Hash := [], Nonce := seed }
  let block := { block with Hash := GenerateHash block }
  mine fuel block

/-- A run-time panic. -/
inductive Fault where
  | indexOutOfRange (index : Int) (length : Nat)
deriving DecidableEq, Repr

/-- The method `AddBlock` as a function of the chain before the call: `none` when mining has not
    ended within the fuel, otherwise the chain after the call and whether the call returned
    (`ok`) or panicked. Indexing `bc.blocks[len(bc.blocks)-1]` panics on an empty slice. -/
def AddBlock (fuel : Nat) (now seed : Int) (data : Bytes) (bc : BlockChain) :
    Option (Except Fault Unit × BlockChain) :=
  match bc.blocks.getLast? with
  | none => some (.error (.indexOutOfRange (-1) 0), bc)
  | some prevBlock =>
      match NewBlock fuel now seed data prevBlock.Hash with
      | none => none
      | some newBlock =>
          some (.ok (), { blocks := bc.blocks ++ [newBlock], currentBlock := newBlock.Hash })

/-- The loop of `Valid` over the blocks, leaving with `false` at the first stored hash that
    fails the difficulty. -/
def validLoop : List Block → Bool
  | [] => true
  | block :: rest => if !IsValidHashDifficulty block.Hash then false else validLoop rest

/-- The method `Valid`. -/
def Valid (bc : BlockChain) : Bool := validLoop bc.blocks

/-- The clock reading, nonce seed and payload of one block creation. -/
structure Draw where
  now : Int
  seed : Int
  data : Bytes
deriving DecidableEq, Repr

/-- The chain of `main` before the calls of `AddBlock`: the zero value of `BlockChain` with the
    genesis block, mined on an empty previous hash, appended to `blocks`. -/
def genesisChain (fuel : Nat) (g : Draw) : Option BlockChain :=
  let chain : BlockChain := { blocks := [], currentBlock := [] }
  match NewBlock fuel g.now g.seed g.data [] with
  | none => none
  | some block => some { chain with blocks := chain.blocks ++ [block] }

/-- A sequence of `AddBlock` calls, one for each draw, stopping at the first call that does not
    return. -/
def addBlocks (fuel : Nat) : List Draw → BlockChain → Option BlockChain
  | [], bc => some bc
  | d :: ds, bc =>
      match AddBlock fuel d.now d.seed d.data bc with
      | some (.ok (), bc1) => addBlocks fuel ds bc1
      | _ => none

/-- The chain that `main` builds: the genesis block and two `AddBlock` calls. -/
def mainChain (fuel : Nat) (g a b : Draw) : Option BlockChain :=
  match genesisChain fuel g with
  | none => none
  | some chain => addBlocks fuel [a, b] chain

/-- The chains the program can build: the genesis chain of `main`, and what a returning
    `AddBlock` makes of such a chain. -/
inductive Built : BlockChain → Prop where
  | genesis (fuel : Nat) (g : Draw) (bc : BlockChain) :
      genesisChain fuel g = some bc → Built bc
  | add (fuel : Nat) (d : Draw) (bc bc1 : BlockChain) :
      Built bc → AddBlock fuel d.now d.seed d.data bc = some (.ok (), bc1) → Built bc1

/-- The block of `NewBlock` when the loop is entered: the fields of the literal, with `Hash`
    assigned the digest of that literal. -/
def startBlock (now seed : Int) (data prevHash : Bytes) : Block :=
  let block : Block :=
    { Timestamp := now, Data := data, PrevBlockHash := prevHash, Hash := [], Nonce := seed }
  { block with Hash := GenerateHash block }

/-- The block under construction in `NewBlock` after `k` increments of the nonce: the block at
    loop entry with the nonce `seed + k` in `int32` arithmetic. -/
def candidate (now seed : Int) (data prevHash : Bytes) (k : Nat) : Block :=
  { startBlock now seed data prevHash with Nonce := wrapInt32 (seed + k) }

/-- The string that `GenerateHash` hands to SHA-256: the local `data` of the method. -/
def hashInput (b : Block) : Bytes :=
  FormatInt b.Timestamp ++ FormatInt b.Nonce ++ b.Data ++ b.PrevBlockHash

/-- The linkage of a block sequence: every block after the first stores, as `PrevBlockHash`,
    the stored `Hash` of the block before it. -/
def Linked (bs : List Block) : Prop :=
  ∀ (i : Nat) (_ : 0 < i) (h : i < bs.length), bs[i].PrevBlockHash = bs[i - 1].Hash

/-! ## A run of `main` -/

/-- The payload of the genesis block in `main`: the bytes of its four-character string literal
    in UTF-8. -/
def genesisData : Bytes :=
  [0xe5, 0x88, 0x9b, 0xe4, 0xb8, 0x96, 0xe5, 0x8c, 0xba, 0xe5, 0x9d, 0x97]

/-- The clock reading, seed and payload of the genesis block in the run. -/
def genesisDraw : Draw := { now := 1700000001, seed := 1781018480, data := genesisData }

/-- The draw of the first `AddBlock`: the payload is the string `5577006791947779410`. -/
def firstDraw : Draw :=
  { now := 1700000002, seed := -1987210435,
    data := [0x35, 0x35, 0x37, 0x37, 0x30, 0x30, 0x36, 0x37, 0x39, 0x31, 0x39, 0x34, 0x37, 0x37,
      0x37, 0x39, 0x34, 0x31, 0x30] }

/-- The genesis block of the run: mining ends after one increment of the nonce. -/
def genesisBlock : Block :=
  { Timestamp := 1700000001, Data := genesisData, PrevBlockHash := [],
    Hash := [0x5e, 0x08, 0x13, 0x78, 0x6a, 0xef, 0x93, 0x5e, 0x05, 0x42, 0x85, 0x06, 0x33, 0xa6,
      0xe7, 0xca, 0x79, 0x65, 0x3e, 0x94, 0xfd, 0x31, 0x6a, 0xe3, 0x05, 0x7b, 0xdb, 0x38, 0xbd,
      0xee, 0x78, 0xca],
    Nonce := 1781018481 }

/-- The block of the first `AddBlock` of the run, mined on the stored hash of the genesis
    block. -/
def firstBlock : Block :=
  { Timestamp := 1700000002, Data := firstDraw.data, PrevBlockHash := genesisBlock.Hash,
    Hash := [0x30, 0xf4, 0xff, 0xf4, 0x5a, 0xa7, 0x83, 0x3f, 0xd0, 0x35, 0x6c, 0x6d, 0x94, 0x23,
      0xd0, 0x04, 0x41, 0x08, 0x10, 0x4f, 0x4e, 0xd0, 0x2e, 0x1e, 0x45, 0x88, 0xbc, 0x93, 0x5b,
      0x30, 0x8e, 0x09],
    Nonce := -1987210434 }

/-- The draw of the second `AddBlock`: the payload is the string `8674665223082153551`. -/
def secondDraw : Draw :=
  { now := 1700000005, seed := -902316930,
    data := [0x38, 0x36, 0x37, 0x34, 0x36, 0x36, 0x35, 0x32, 0x32, 0x33, 0x30, 0x38, 0x32, 0x31,
      0x35, 0x33, 0x35, 0x35, 0x31] }

/-- The block of the second `AddBlock` of the run, mined on the stored hash of the first. -/
def secondBlock : Block :=
  { Timestamp := 1700000005, Data := secondDraw.data, PrevBlockHash := firstBlock.Hash,
    Hash := [0xf3, 0x81, 0xb8, 0x2f, 0xd7, 0x5a, 0xb4, 0x17, 0xae, 0xf3, 0x26, 0x50, 0x76, 0xae,
      0x6f, 0xbb, 0xba, 0x01, 0xcd, 0x25, 0xd6, 0x86, 0xd7, 0x8b, 0xb4, 0x91, 0xe6, 0xdb, 0x50,
      0xd0, 0x02, 0xe8],
    Nonce := -902316929 }

/-- The chain of the run after the genesis block is appended; `main` leaves `currentBlock`
    at its zero value here. -/
def runChain0 : BlockChain := { blocks := [genesisBlock], currentBlock := [] }

/-- The chain of the run after the first `AddBlock`. -/
def runChain1 : BlockChain :=
  { blocks := [genesisBlock, firstBlock], currentBlock := firstBlock.Hash }

/-- The chain of the run after the second `AddBlock`. -/
def runChain2 : BlockChain :=
  { blocks := [genesisBlock, firstBlock, secondBlock], currentBlock := secondBlock.Hash }

/-- A genesis block of another run, with the seed already at the nonce that meets the
    difficulty: the loop does not increment, and the stored hash is the digest of the block. -/
def settledGenesis : Block :=
  { Timestamp := 1700000001, Data := genesisData, PrevBlockHash := [],
    Hash := [0x30, 0x30, 0x30, 0x30, 0x39, 0x3c, 0x69, 0xcf, 0x03, 0x56, 0x1b, 0x9b, 0x17, 0x81,
      0xd2, 0x3f, 0xe1, 0x51, 0x0a, 0xd0, 0x61, 0x96, 0xb8, 0x58, 0xb2, 0xe8, 0xee, 0x91, 0x00,
      0xfb, 0xce, 0xb8],
    Nonce := 1781018481 }

/-- The block `settledGenesis` with the first byte of its payload changed and nothing else. -/
def alteredGenesis : Block :=
  { settledGenesis with
    Data := [0xe4, 0x88, 0x9b, 0xe4, 0xb8, 0x96, 0xe5, 0x8c, 0xba, 0xe5, 0x9d, 0x97] }

/-- A chain of one block whose payload was changed after mining. -/
def alteredChain : BlockChain :=
  { blocks := [alteredGenesis], currentBlock := alteredGenesis.Hash }

/-- A chain of two blocks in which the second does not store the hash of the first. -/
def unlinkedChain : BlockChain :=
  { blocks := [settledGenesis, settledGenesis], currentBlock := settledGenesis.Hash }

/-- The genesis block of the run with its stored hash replaced by the empty byte sequence. -/
def blankedGenesis : Block := { genesisBlock with Hash := [] }

/-! ## The digest as the specification words it -/

/-- The decimal digits of a natural number, most significant first, as ASCII bytes; `0` is the
    one digit `0`. -/
def decimalDigits (n : Nat) : Bytes :=
  if n = 0 then [48] else ((Nat.digits 10 n).reverse).map (fun d => toByte (48 + d))

/-- The decimal string of an integer: its digits, with a leading `-` when it is negative. -/
def decimalString (i : Int) : Bytes :=
  if i < 0 then 45 :: decimalDigits i.natAbs else decimalDigits i.natAbs

/-- The digest of the specification: SHA-256 of the decimal string of the timestamp, the decimal
    string of the nonce, the payload and the previous digest, in this order. -/
def Digest (timestamp nonce : Int) (payload prevDigest : Bytes) : Bytes :=
  SHA256.Sum256 (decimalString timestamp ++ decimalString nonce ++ payload ++ prevDigest)

/-! ## Lemmas on the library functions -/

/-- The digest of the empty message, as published with the standard. -/
theorem sum256_empty :
    SHA256.Sum256 [] =
      [0xe3, 0xb0, 0xc4, 0x42, 0x98, 0xfc, 0x1c, 0x14, 0x9a, 0xfb, 0xf4, 0xc8, 0x99, 0x6f, 0xb9,
       0x24, 0x27, 0xae, 0x41, 0xe4, 0x64, 0x9b, 0x93, 0x4c, 0xa4, 0x95, 0x99, 0x1b, 0x78, 0x52,
       0xb8, 0x55] := by
  decide!

/-- The digest of the three bytes `abc`, the first example of the standard. -/
theorem sum256_abc :
    SHA256.Sum256 [0x61, 0x62, 0x63] =
      [0xba, 0x78, 0x16, 0xbf, 0x8f, 0x01, 0xcf, 0xea, 0x41, 0x41, 0x40, 0xde, 0x5d, 0xae, 0x22,
       0x23, 0xb0, 0x03, 0x61, 0xa3, 0x96, 0x17, 0x7a, 0x9c, 0xb4, 0x10, 0xff, 0x61, 0xf2, 0x00,
       0x15, 0xad] := by
  decide!

/-- The digest of the 56-byte example of the standard, a message of two blocks. -/
theorem sum256_two_blocks :
    SHA256.Sum256
      [0x61, 0x62, 0x63, 0x64, 0x62, 0x63, 0x64, 0x65, 0x63, 0x64, 0x65, 0x66, 0x64, 0x65, 0x66,
       0x67, 0x65, 0x66, 0x67, 0x68, 0x66, 0x67, 0x68, 0x69, 0x67, 0x68, 0x69, 0x6a, 0x68, 0x69,
       0x6a, 0x6b, 0x69, 0x6a, 0x6b, 0x6c, 0x6a, 0x6b, 0x6c, 0x6d, 0x6b, 0x6c, 0x6d, 0x6e, 0x6c,
       0x6d, 0x6e, 0x6f, 0x6d, 0x6e, 0x6f, 0x70, 0x6e, 0x6f, 0x70, 0x71] =
      [0x24, 0x8d, 0x6a, 0x61, 0xd2, 0x06, 0x38, 0xb8, 0xe5, 0xc0, 0x26, 0x93, 0x0c, 0x3e, 0x60,
       0x39, 0xa3, 0x3c, 0xe4, 0x59, 0x64, 0xff, 0x21, 0x67, 0xf6, 0xec, 0xed, 0xd4, 0x19, 0xdb,
       0x06, 0xc1] := by
  decide!

theorem sum256_length (data : Bytes) : (SHA256.Sum256 data).length = 32 := by
  simp [SHA256.Sum256, SHA256.wordBytes]

theorem formatBits_eq (fuel : Nat) : ∀ (u : Nat) (acc : Bytes), u < fuel →
    formatBits fuel u acc = decimalDigits u ++ acc := by
  induction fuel with
  | zero => intro u acc h; omega
  | succ n ih =>
    intro u acc h
    unfold formatBits
    by_cases hu : u < 10
    · rw [if_pos hu]
      by_cases h0 : u = 0
      · subst h0; simp [decimalDigits]; rfl
      · have hd : Nat.digits 10 u = [u] := Nat.digits_of_lt 10 u h0 hu
        simp [decimalDigits, h0, hd]
    · rw [if_neg hu]
      have hpos : 0 < u := by omega
      have hq : u / 10 < n := by omega
      have hq0 : u / 10 ≠ 0 := by omega
      have hd : Nat.digits 10 u = (u % 10) :: Nat.digits 10 (u / 10) :=
        Nat.digits_def' (by decide) hpos
      rw [ih (u / 10) _ hq]
      have hu0 : u ≠ 0 := by omega
      simp [decimalDigits, hq0, hd, hu0]

theorem formatInt_eq_decimalString (i : Int) : FormatInt i = decimalString i := by
  unfold FormatInt decimalString
  rw [formatBits_eq _ _ _ (Nat.lt_succ_self _)]
  simp

theorem generateHash_eq_digest (b : Block) :
    GenerateHash b = Digest b.Timestamp b.Nonce b.Data b.PrevBlockHash := by
  simp [GenerateHash, Digest, formatInt_eq_decimalString]

theorem isValidHashDifficulty_iff_starts (h : Bytes) :
    IsValidHashDifficulty h = true ↔ ∃ rest, h = 48 :: 48 :: 48 :: 48 :: rest := by
  match h with
  | [] => simp [IsValidHashDifficulty, HasPrefix, Repeat]
  | [_] => simp [IsValidHashDifficulty, HasPrefix, Repeat]
  | [_, _] => simp [IsValidHashDifficulty, HasPrefix, Repeat]
  | [_, _, _] => simp [IsValidHashDifficulty, HasPrefix, Repeat]
  | a :: b :: c :: d :: t => simp [IsValidHashDifficulty, HasPrefix, Repeat]

theorem validLoop_eq_true_iff (bs : List Block) :
    validLoop bs = true ↔ ∀ b ∈ bs, IsValidHashDifficulty b.Hash = true := by
  induction bs with
  | nil => simp [validLoop]
  | cons b rest ih =>
    unfold validLoop
    cases hb : IsValidHashDifficulty b.Hash <;> simp [hb, ih]

/-! ## Lemmas on the mining loop -/

theorem wrapInt32_of_isInt32 (x : Int) (h : isInt32 x) : wrapInt32 x = x := by
  unfold isInt32 at h
  unfold wrapInt32
  omega

theorem wrapInt32_incr (x : Int) : wrapInt32 (wrapInt32 x + 1) = wrapInt32 (x + 1) := by
  unfold wrapInt32
  omega

theorem isInt32_wrapInt32 (x : Int) : isInt32 (wrapInt32 x) := by
  unfold isInt32 wrapInt32
  omega

theorem checkProofOfWork_eq (b : Block) :
    CheckProofOfWork b = IsValidHashDifficulty (GenerateHash b) := by
  simp only [CheckProofOfWork]
  cases h : IsValidHashDifficulty (GenerateHash b) <;> simp

theorem mine_succ_of_fail (fuel : Nat) (b : Block) (h : CheckProofOfWork b = false) :
    mine (fuel + 1) b = mine fuel (incrNonce b) := by
  simp [mine, h]

theorem mine_succ_of_pass (fuel : Nat) (b : Block) (h : CheckProofOfWork b = true) :
    mine (fuel + 1) b = some b := by
  simp [mine, h]

/-- What a finished loop returns: the block after `k` increments, `k` the first count at which
    the proof of work holds. -/
theorem mine_some (fuel : Nat) : ∀ (b r : Block), mine fuel b = some r →
    ∃ k : Nat, k < fuel ∧ r = incrNonce^[k] b ∧ CheckProofOfWork r = true ∧
      ∀ j : Nat, j < k → CheckProofOfWork (incrNonce^[j] b) = false := by
  induction fuel with
  | zero => intro b r h; simp [mine] at h
  | succ n ih =>
    intro b r h
    cases hc : CheckProofOfWork b with
    | true =>
      rw [mine_succ_of_pass n b hc] at h
      cases h
      exact ⟨0, Nat.succ_pos n, rfl, hc, fun j hj => absurd hj (Nat.not_lt_zero j)⟩
    | false =>
      rw [mine_succ_of_fail n b hc] at h
      obtain ⟨k, hk, hr, hpass, hfail⟩ := ih (incrNonce b) r h
      refine ⟨k + 1, Nat.succ_lt_succ hk, ?_, hpass, ?_⟩
      · rw [Function.iterate_succ_apply]; exact hr
      · intro j hj
        cases j with
        | zero => exact hc
        | succ i =>
          rw [Function.iterate_succ_apply]
          exact hfail i (Nat.lt_of_succ_lt_succ hj)

/-- Enough fuel ends the loop: when the proof of work first holds after `k` increments, every
    fuel above `k` returns the block after `k` increments. -/
theorem mine_of_first (k : Nat) : ∀ (fuel : Nat) (b : Block), k < fuel →
    CheckProofOfWork (incrNonce^[k] b) = true →
    (∀ j : Nat, j < k → CheckProofOfWork (incrNonce^[j] b) = false) →
    mine fuel b = some (incrNonce^[k] b) := by
  induction k with
  | zero =>
    intro fuel b hf hpass _
    obtain ⟨n, rfl⟩ : ∃ n, fuel = n + 1 := ⟨fuel - 1, by omega⟩
    exact mine_succ_of_pass n b hpass
  | succ k ih =>
    intro fuel b hf hpass hfail
    obtain ⟨n, rfl⟩ : ∃ n, fuel = n + 1 := ⟨fuel - 1, by omega⟩
    rw [mine_succ_of_fail n b (hfail 0 (Nat.succ_pos k))]
    rw [Function.iterate_succ_apply] at hpass ⊢
    refine ih n (incrNonce b) (by omega) hpass ?_
    intro j hj
    have := hfail (j + 1) (Nat.succ_lt_succ hj)
    rwa [Function.iterate_succ_apply] at this

/-- More fuel does not change the result of a finished loop. -/
theorem mine_mono (fuel extra : Nat) (b r : Block) (h : mine fuel b = some r) :
    mine (fuel + extra) b = some r := by
  obtain ⟨k, hk, hr, hpass, hfail⟩ := mine_some fuel b r h
  rw [hr] at hpass ⊢
  exact mine_of_first k (fuel + extra) b (by omega) hpass hfail

theorem newBlock_eq_mine (fuel : Nat) (now seed : Int) (data prevHash : Bytes) :
    NewBlock fuel now seed data prevHash = mine fuel (startBlock now seed data prevHash) := rfl

theorem iterate_incrNonce (now seed : Int) (data prevHash : Bytes) (hseed : isInt32 seed)
    (k : Nat) :
    incrNonce^[k] (startBlock now seed data prevHash) = candidate now seed data prevHash k := by
  induction k with
  | zero =>
    simp only [Function.iterate_zero, id_eq, candidate, startBlock, Nat.cast_zero, add_zero]
    rw [wrapInt32_of_isInt32 seed hseed]
  | succ k ih =>
    rw [Function.iterate_succ_apply', ih]
    simp only [incrNonce, candidate, startBlock, Nat.cast_succ]
    rw [wrapInt32_incr, add_assoc]

/-- The loop writes the nonce only. -/
theorem mine_fields (fuel : Nat) : ∀ (b r : Block), mine fuel b = some r →
    r.Timestamp = b.Timestamp ∧ r.Data = b.Data ∧ r.PrevBlockHash = b.PrevBlockHash ∧
      r.Hash = b.Hash := by
  induction fuel with
  | zero => intro b r h; simp [mine] at h
  | succ n ih =>
    intro b r h
    cases hc : CheckProofOfWork b with
    | true =>
      rw [mine_succ_of_pass n b hc] at h
      cases h
      exact ⟨rfl, rfl, rfl, rfl⟩
    | false =>
      rw [mine_succ_of_fail n b hc] at h
      exact ih (incrNonce b) r h

theorem newBlock_fields (fuel : Nat) (now seed : Int) (data prevHash : Bytes) (b : Block)
    (h : NewBlock fuel now seed data prevHash = some b) :
    b.Timestamp = now ∧ b.Data = data ∧ b.PrevBlockHash = prevHash ∧
      b.Hash = (startBlock now seed data prevHash).Hash :=
  mine_fields fuel _ b h

/-! ## Lemmas on `AddBlock` -/

theorem addBlock_nil (fuel : Nat) (now seed : Int) (data cur : Bytes) :
    AddBlock fuel now seed data { blocks := [], currentBlock := cur } =
      some (.error (.indexOutOfRange (-1) 0), { blocks := [], currentBlock := cur }) := rfl

/-- A returning `AddBlock`: the chain had a last block, the new block was mined on its stored
    `Hash`, and the new chain is the old block sequence with the new block at the end. -/
theorem addBlock_ok (fuel : Nat) (now seed : Int) (data : Bytes) (bc bc1 : BlockChain)
    (h : AddBlock fuel now seed data bc = some (.ok (), bc1)) :
    ∃ prevBlock newBlock, bc.blocks.getLast? = some prevBlock ∧
      NewBlock fuel now seed data prevBlock.Hash = some newBlock ∧
      bc1 = { blocks := bc.blocks ++ [newBlock], currentBlock := newBlock.Hash } := by
  unfold AddBlock at h
  cases hl : bc.blocks.getLast? with
  | none => rw [hl] at h; simp at h
  | some prevBlock =>
    rw [hl] at h
    cases hn : NewBlock fuel now seed data prevBlock.Hash with
    | none => simp [hn] at h
    | some newBlock =>
      simp only [hn, Option.some.injEq, Prod.mk.injEq, true_and] at h
      exact ⟨prevBlock, newBlock, rfl, hn, h.symm⟩

theorem addBlock_of_newBlock (fuel : Nat) (now seed : Int) (data : Bytes) (bc : BlockChain)
    (prevBlock newBlock : Block) (hl : bc.blocks.getLast? = some prevBlock)
    (hn : NewBlock fuel now seed data prevBlock.Hash = some newBlock) :
    AddBlock fuel now seed data bc =
      some (.ok (), { blocks := bc.blocks ++ [newBlock], currentBlock := newBlock.Hash }) := by
  unfold AddBlock
  rw [hl]
  simp only [hn]

theorem linked_append (bs : List Block) (prevBlock newBlock : Block) (hl : Linked bs)
    (hlast : bs.getLast? = some prevBlock) (hprev : newBlock.PrevBlockHash = prevBlock.Hash) :
    Linked (bs ++ [newBlock]) := by
  intro i hi h
  have hlen : (bs ++ [newBlock]).length = bs.length + 1 := by simp
  by_cases hlt : i < bs.length
  · have h1 : (bs ++ [newBlock])[i] = bs[i] := List.getElem_append_left hlt
    have h2 : (bs ++ [newBlock])[i - 1] = bs[i - 1] :=
      List.getElem_append_left (by omega)
    rw [h1, h2]
    exact hl i hi hlt
  · have hieq : i = bs.length := by omega
    subst hieq
    have h1 : (bs ++ [newBlock])[bs.length] = newBlock := by simp
    have h2 : (bs ++ [newBlock])[bs.length - 1] = bs[bs.length - 1] :=
      List.getElem_append_left (by omega)
    rw [h1, h2, hprev]
    rw [List.getLast?_eq_getElem?, List.getElem?_eq_getElem (by omega)] at hlast
    cases hlast
    rfl

theorem built_linked_and_genesis (bc : BlockChain) (h : Built bc) :
    Linked bc.blocks ∧ ∃ first, bc.blocks.head? = some first ∧ first.PrevBlockHash = [] := by
  induction h with
  | genesis fuel g bc hg =>
    unfold genesisChain at hg
    cases hn : NewBlock fuel g.now g.seed g.data [] with
    | none => rw [hn] at hg; simp at hg
    | some block =>
      rw [hn] at hg
      simp only [List.nil_append, Option.some.injEq] at hg
      subst hg
      refine ⟨?_, block, rfl, (newBlock_fields _ _ _ _ _ _ hn).2.2.1⟩
      intro i hi h
      simp at h
      omega
  | add fuel d bc bc1 _ hadd ih =>
    obtain ⟨prevBlock, newBlock, hlast, hn, rfl⟩ := addBlock_ok _ _ _ _ _ _ hadd
    obtain ⟨hlink, first, hfirst, hempty⟩ := ih
    refine ⟨linked_append _ _ _ hlink hlast (newBlock_fields _ _ _ _ _ _ hn).2.2.1, first, ?_,
      hempty⟩
    cases hb : bc.blocks with
    | nil => rw [hb] at hfirst; simp at hfirst
    | cons x xs => rw [hb] at hfirst; simpa using hfirst

/-! ## The run of `main`, evaluated -/

set_option maxRecDepth 100000 in
/-- The genesis block of the run: the digest of the seed nonce fails the difficulty, the digest
    of the next nonce meets it. -/
theorem genesis_run :
    NewBlock 2 genesisDraw.now genesisDraw.seed genesisDraw.data [] = some genesisBlock := by
  decide!

set_option maxRecDepth 100000 in
/-- The first appended block of the run. -/
theorem first_run :
    NewBlock 2 firstDraw.now firstDraw.seed firstDraw.data genesisBlock.Hash =
      some firstBlock := by
  decide!

set_option maxRecDepth 100000 in
theorem genesisBlock_digest :
    GenerateHash genesisBlock =
      [0x30, 0x30, 0x30, 0x30, 0x39, 0x3c, 0x69, 0xcf, 0x03, 0x56, 0x1b, 0x9b, 0x17, 0x81, 0xd2,
       0x3f, 0xe1, 0x51, 0x0a, 0xd0, 0x61, 0x96, 0xb8, 0x58, 0xb2, 0xe8, 0xee, 0x91, 0x00, 0xfb,
       0xce, 0xb8] := by
  decide!

set_option maxRecDepth 100000 in
theorem firstBlock_digest :
    GenerateHash firstBlock =
      [0x30, 0x30, 0x30, 0x30, 0xe4, 0x74, 0xf9, 0x95, 0x17, 0x7d, 0x82, 0xdc, 0x88, 0x93, 0x03,
       0x89, 0x2c, 0x79, 0x2d, 0xa4, 0x25, 0x83, 0x92, 0x5f, 0x1d, 0xac, 0xea, 0x0c, 0xb1, 0x21,
       0xf3, 0x7b] := by
  decide!

set_option maxRecDepth 100000 in
/-- The second appended block of the run. -/
theorem second_run :
    NewBlock 2 secondDraw.now secondDraw.seed secondDraw.data firstBlock.Hash =
      some secondBlock := by
  decide!

theorem genesisChain_run : genesisChain 2 genesisDraw = some runChain0 := by
  unfold genesisChain
  rw [genesis_run]
  rfl

theorem addBlock_first_run :
    AddBlock 2 firstDraw.now firstDraw.seed firstDraw.data runChain0 =
      some (.ok (), runChain1) :=
  addBlock_of_newBlock 2 _ _ _ runChain0 genesisBlock firstBlock rfl first_run

theorem addBlock_second_run :
    AddBlock 2 secondDraw.now secondDraw.seed secondDraw.data runChain1 =
      some (.ok (), runChain2) :=
  addBlock_of_newBlock 2 _ _ _ runChain1 firstBlock secondBlock rfl second_run

theorem mainChain_run : mainChain 2 genesisDraw firstDraw secondDraw = some runChain2 := by
  unfold mainChain
  rw [genesisChain_run]
  simp only [addBlocks]
  rw [addBlock_first_run]
  simp only
  rw [addBlock_second_run]

theorem built_runChain2 : Built runChain2 :=
  .add 2 secondDraw runChain1 runChain2
    (.add 2 firstDraw runChain0 runChain1 (.genesis 2 genesisDraw runChain0 genesisChain_run)
      addBlock_first_run)
    addBlock_second_run

set_option maxRecDepth 100000 in
theorem secondBlock_digest :
    GenerateHash secondBlock =
      [0x30, 0x30, 0x30, 0x30, 0x8d, 0xea, 0x85, 0xda, 0xb9, 0x85, 0x79, 0x46, 0xbf, 0x94, 0x7a,
       0x2b, 0x41, 0x20, 0xa1, 0xbd, 0x77, 0x15, 0x83, 0x31, 0x5e, 0x66, 0xc1, 0xd9, 0x47, 0x38,
       0xd3, 0xbc] := by
  decide!

set_option maxRecDepth 100000 in
/-- With the seed at the nonce that meets the difficulty, the loop condition fails at once. -/
theorem settled_run :
    NewBlock 1 1700000001 1781018481 genesisData [] = some settledGenesis := by
  decide!

set_option maxRecDepth 100000 in
theorem alteredGenesis_digest :
    GenerateHash alteredGenesis =
      [0xab, 0xb5, 0x14, 0xe8, 0xb6, 0x79, 0x86, 0x31, 0x1f, 0x00, 0x2f, 0x44, 0x9d, 0xdc, 0xc2,
       0xce, 0xeb, 0x42, 0x18, 0xe3, 0x20, 0x21, 0x4d, 0x57, 0x41, 0xc6, 0x7d, 0xbd, 0xd4, 0x21,
       0xe5, 0x4f] := by
  decide!

/-! ## Lemmas on the stored hash and on `Valid` -/

theorem generateHash_eq_sum256_hashInput (b : Block) :
    GenerateHash b = SHA256.Sum256 (hashInput b) := rfl

theorem incrNonce_iterate_hash (k : Nat) (b : Block) : (incrNonce^[k] b).Hash = b.Hash := by
  induction k with
  | zero => rfl
  | succ k ih => rw [Function.iterate_succ_apply', incrNonce, ih]

theorem startBlock_hash (now seed : Int) (data prevHash : Bytes) :
    (startBlock now seed data prevHash).Hash = Digest now seed data prevHash := by
  simp only [startBlock]
  exact generateHash_eq_digest _

/-- A returning `AddBlock` leaves in `currentBlock` the stored hash of the new last block. -/
theorem addBlock_currentBlock (fuel : Nat) (now seed : Int) (data : Bytes)
    (bc bc1 : BlockChain) (h : AddBlock fuel now seed data bc = some (.ok (), bc1)) :
    ∃ last, bc1.blocks.getLast? = some last ∧ bc1.currentBlock = last.Hash := by
  obtain ⟨prevBlock, newBlock, _, _, rfl⟩ := addBlock_ok _ _ _ _ _ _ h
  exact ⟨newBlock, by simp, rfl⟩

theorem validLoop_eq_all (bs : List Block) :
    validLoop bs = (bs.map Block.Hash).all IsValidHashDifficulty := by
  induction bs with
  | nil => rfl
  | cons b rest ih =>
    unfold validLoop
    cases hb : IsValidHashDifficulty b.Hash <;> simp [hb, ih]

/-! ## Lemmas on the nonces the loop visits -/

/-- Counting up from any `int32` with wrap-around reaches every `int32` within `2^32 - 1`
    increments. -/
theorem wrapInt32_reaches (seed n : Int) (hn : isInt32 n) :
    ∃ k : Nat, k < 4294967296 ∧ wrapInt32 (seed + k) = n := by
  have hnonneg : 0 ≤ (n - seed) % 4294967296 := Int.emod_nonneg _ (by decide)
  refine ⟨((n - seed) % 4294967296).toNat, ?_, ?_⟩
  · have hlt : (n - seed) % 4294967296 < 4294967296 := Int.emod_lt_of_pos _ (by decide)
    omega
  · rw [Int.toNat_of_nonneg hnonneg]
    unfold isInt32 at hn
    unfold wrapInt32
    omega

theorem checkProofOfWork_candidate (now seed : Int) (data prevHash : Bytes) (k : Nat) :
    CheckProofOfWork (candidate now seed data prevHash k) =
      IsValidHashDifficulty (Digest now (wrapInt32 (seed + k)) data prevHash) := by
  rw [checkProofOfWork_eq, generateHash_eq_digest]
  rfl

/-- The loop ends exactly when the proof of work holds after some count of increments; it then
    ends at the first such count `k`: every fuel above `k` returns the block with `k`
    increments, and no fuel up to `k` returns. -/
theorem newBlock_of_some_pass (now seed : Int) (data prevHash : Bytes) (hseed : isInt32 seed)
    (k0 : Nat) (h0 : CheckProofOfWork (candidate now seed data prevHash k0) = true) :
    ∃ k : Nat, k ≤ k0 ∧
      (∀ fuel : Nat, k < fuel →
        NewBlock fuel now seed data prevHash = some (candidate now seed data prevHash k)) ∧
      (∀ fuel : Nat, fuel ≤ k → NewBlock fuel now seed data prevHash = none) := by
  have hex : ∃ k, CheckProofOfWork (candidate now seed data prevHash k) = true := ⟨k0, h0⟩
  refine ⟨Nat.find hex, Nat.find_min' hex h0, ?_, ?_⟩
  · intro fuel hfuel
    rw [newBlock_eq_mine, ← iterate_incrNonce now seed data prevHash hseed (Nat.find hex)]
    apply mine_of_first _ _ _ hfuel
    · rw [iterate_incrNonce now seed data prevHash hseed]
      exact Nat.find_spec hex
    · intro j hj
      rw [iterate_incrNonce now seed data prevHash hseed]
      have := Nat.find_min hex hj
      simpa using this
  · intro fuel hfuel
    cases hr : NewBlock fuel now seed data prevHash with
    | none => rfl
    | some r =>
      rw [newBlock_eq_mine] at hr
      obtain ⟨k, hk, hrk, hpass, _⟩ := mine_some fuel _ r hr
      rw [hrk, iterate_incrNonce now seed data prevHash hseed] at hpass
      exact absurd hpass (Nat.find_min hex (by omega))

theorem genesis_winning_digest :
    IsValidHashDifficulty (Digest genesisDraw.now 1781018481 genesisDraw.data []) = true := by
  have h : Digest genesisDraw.now 1781018481 genesisDraw.data [] = GenerateHash genesisBlock :=
    (generateHash_eq_digest genesisBlock).symm
  rw [h, genesisBlock_digest]
  decide

/-! ## The claims -/

/-- C1, evaluated on the genesis block of the run: `NewBlock` returns a block whose stored
    `Hash` does not satisfy `IsValidHashDifficulty`. The stored `Hash` is the digest assigned
    before the loop; the loop increments the nonce until the recomputed digest meets the
    difficulty and never assigns `Hash` again. -/
theorem newBlock_stored_hash_misses_difficulty :
    NewBlock 2 genesisDraw.now genesisDraw.seed genesisDraw.data [] = some genesisBlock ∧
    IsValidHashDifficulty genesisBlock.Hash = false ∧
    IsValidHashDifficulty (GenerateHash genesisBlock) = true := by
  refine ⟨genesis_run, by decide, ?_⟩
  rw [genesisBlock_digest]
  decide

/-- C2, evaluated on the first appended block of the run: recomputing `GenerateHash` on the
    block that `NewBlock` returned does not give its stored `Hash`. -/
theorem newBlock_stored_hash_differs_from_digest :
    NewBlock 2 firstDraw.now firstDraw.seed firstDraw.data genesisBlock.Hash =
      some firstBlock ∧
    GenerateHash firstBlock ≠ firstBlock.Hash := by
  refine ⟨first_run, ?_⟩
  rw [firstBlock_digest]
  decide

/-- C3, evaluated on the run: the chain of `main`, a genesis block and two `AddBlock` calls on
    which mining ends, has length 3 and `Valid` returns false on it. -/
theorem mainChain_fresh_chain_not_valid :
    mainChain 2 genesisDraw firstDraw secondDraw = some runChain2 ∧
    runChain2.blocks.length = 3 ∧
    Valid runChain2 = false :=
  ⟨mainChain_run, rfl, by decide⟩

/-- C4: `AddBlock` preserves the linkage "for every index `i > 0`,
    `blocks[i].PrevBlockHash == blocks[i-1].Hash`"; so in every chain built from a genesis block
    by returning `AddBlock` calls, every block after the first has as `PrevBlockHash` the stored
    `Hash` of the block before it, and the genesis block has an empty `PrevBlockHash`. -/
theorem addBlock_preserves_linkage :
    (∀ (fuel : Nat) (now seed : Int) (data : Bytes) (bc bc1 : BlockChain),
      Linked bc.blocks → AddBlock fuel now seed data bc = some (.ok (), bc1) →
      Linked bc1.blocks) ∧
    (∀ bc : BlockChain, Built bc →
      (∀ (i : Nat) (_ : 0 < i) (h : i < bc.blocks.length),
        bc.blocks[i].PrevBlockHash = bc.blocks[i - 1].Hash) ∧
      ∃ first, bc.blocks.head? = some first ∧ first.PrevBlockHash = []) := by
  constructor
  · intro fuel now seed data bc bc1 hl hadd
    obtain ⟨prevBlock, newBlock, hlast, hn, rfl⟩ := addBlock_ok _ _ _ _ _ _ hadd
    exact linked_append _ _ _ hl hlast (newBlock_fields _ _ _ _ _ _ hn).2.2.1
  · intro bc hb
    exact built_linked_and_genesis bc hb

theorem addBlock_preserves_linkage_witness :
    Built runChain2 ∧
    (∀ (i : Nat) (_ : 0 < i) (h : i < runChain2.blocks.length),
      runChain2.blocks[i].PrevBlockHash = runChain2.blocks[i - 1].Hash) ∧
    ∃ first, runChain2.blocks.head? = some first ∧ first.PrevBlockHash = [] :=
  ⟨built_runChain2, addBlock_preserves_linkage.2 runChain2 built_runChain2⟩

/-- C5: on every chain, the empty one included, `Valid` returns true exactly when the stored
    `Hash` of every block satisfies `IsValidHashDifficulty`, and false exactly when the stored
    `Hash` of some block fails it. -/
theorem valid_iff_every_stored_hash_meets_difficulty :
    (∀ bc : BlockChain,
      Valid bc = true ↔ ∀ b ∈ bc.blocks, IsValidHashDifficulty b.Hash = true) ∧
    (∀ bc : BlockChain,
      Valid bc = false ↔ ∃ b ∈ bc.blocks, IsValidHashDifficulty b.Hash = false) ∧
    Valid { blocks := [], currentBlock := [] } = true := by
  refine ⟨fun bc => validLoop_eq_true_iff bc.blocks, fun bc => ?_, rfl⟩
  have h := validLoop_eq_true_iff bc.blocks
  unfold Valid
  constructor
  · intro hf
    by_contra hne
    have hall : ∀ b ∈ bc.blocks, IsValidHashDifficulty b.Hash = true := by
      intro b hb
      by_contra hbf
      exact hne ⟨b, hb, by simpa using hbf⟩
    rw [h.mpr hall] at hf
    exact Bool.noConfusion hf
  · rintro ⟨b, hb, hbf⟩
    cases hv : validLoop bc.blocks with
    | false => rfl
    | true => rw [h.mp hv b hb] at hbf; exact Bool.noConfusion hbf

/-- C6: `IsValidHashDifficulty h` is true exactly when `h` has at least 4 bytes and each of its
    first 4 bytes is `0x30`, the character `0`; a hash that starts with four bytes `0x00` does
    not satisfy it. -/
theorem isValidHashDifficulty_iff_four_bytes_0x30 :
    (∀ h : Bytes, IsValidHashDifficulty h = true ↔
      4 ≤ h.length ∧ ∀ i : Nat, i < 4 → h[i]? = some (0x30 : Byte)) ∧
    (∀ rest : Bytes, IsValidHashDifficulty (0x00 :: 0x00 :: 0x00 :: 0x00 :: rest) = false) := by
  constructor
  · intro h
    rw [isValidHashDifficulty_iff_starts]
    constructor
    · rintro ⟨rest, rfl⟩
      refine ⟨by simp, fun i hi => ?_⟩
      interval_cases i <;> simp
    · rintro ⟨hlen, hget⟩
      match h, hlen with
      | a :: b :: c :: d :: t, _ =>
        have h0 := hget 0 (by decide)
        have h1 := hget 1 (by decide)
        have h2 := hget 2 (by decide)
        have h3 := hget 3 (by decide)
        simp at h0 h1 h2 h3
        exact ⟨t, by rw [h0, h1, h2, h3]⟩
  · intro rest
    cases hv : IsValidHashDifficulty (0x00 :: 0x00 :: 0x00 :: 0x00 :: rest) with
    | false => rfl
    | true =>
      obtain ⟨r, hr⟩ := (isValidHashDifficulty_iff_starts _).mp hv
      simp at hr

/-- C7: for every block, `GenerateHash` is SHA-256 of the concatenation, in this order, of the
    decimal string of `Timestamp`, the decimal string of `Nonce` (with a leading `-` when
    negative), the bytes of `Data` and the bytes of `PrevBlockHash`, and it is 32 bytes long. -/
theorem generateHash_is_sha256_of_decimal_fields (b : Block) :
    GenerateHash b = SHA256.Sum256
      (decimalString b.Timestamp ++ decimalString b.Nonce ++ b.Data ++ b.PrevBlockHash) ∧
    GenerateHash b = Digest b.Timestamp b.Nonce b.Data b.PrevBlockHash ∧
    (GenerateHash b).length = 32 := by
  refine ⟨?_, generateHash_eq_digest b, ?_⟩
  · exact generateHash_eq_digest b
  · exact sum256_length _

/-- C8: on a chain with no blocks `AddBlock` fails, whatever the fuel: it panics on the index
    `len(bc.blocks)-1 = -1` of the empty slice before it mines, and the chain is unchanged; on a
    chain with a last block on whose stored `Hash` mining ends, it returns without error, and no
    fuel makes it fail. -/
theorem addBlock_fails_exactly_on_empty_chain :
    (∀ (fuel : Nat) (now seed : Int) (data cur : Bytes),
      AddBlock fuel now seed data { blocks := [], currentBlock := cur } =
        some (.error (.indexOutOfRange (-1) 0), { blocks := [], currentBlock := cur })) ∧
    (∀ (fuel : Nat) (now seed : Int) (data : Bytes) (bc : BlockChain) (prevBlock newBlock : Block),
      bc.blocks.getLast? = some prevBlock →
      NewBlock fuel now seed data prevBlock.Hash = some newBlock →
      (∀ extra : Nat, ∃ bc1, AddBlock (fuel + extra) now seed data bc = some (.ok (), bc1)) ∧
      (∀ (fuel1 : Nat) (fault : Fault) (bc1 : BlockChain),
        AddBlock fuel1 now seed data bc ≠ some (.error fault, bc1))) := by
  refine ⟨addBlock_nil, ?_⟩
  intro fuel now seed data bc prevBlock newBlock hl hn
  constructor
  · intro extra
    have hn1 : NewBlock (fuel + extra) now seed data prevBlock.Hash = some newBlock :=
      mine_mono fuel extra _ _ hn
    exact ⟨_, addBlock_of_newBlock _ _ _ _ _ _ _ hl hn1⟩
  · intro fuel1 fault bc1 hbad
    unfold AddBlock at hbad
    rw [hl] at hbad
    cases hm : NewBlock fuel1 now seed data prevBlock.Hash with
    | none => simp [hm] at hbad
    | some nb => simp [hm] at hbad

theorem addBlock_fails_exactly_on_empty_chain_witness :
    runChain0.blocks.getLast? = some genesisBlock ∧
    NewBlock 2 firstDraw.now firstDraw.seed firstDraw.data genesisBlock.Hash = some firstBlock ∧
    (∀ extra : Nat, ∃ bc1,
      AddBlock (2 + extra) firstDraw.now firstDraw.seed firstDraw.data runChain0 =
        some (.ok (), bc1)) ∧
    (∀ (fuel1 : Nat) (fault : Fault) (bc1 : BlockChain),
      AddBlock fuel1 firstDraw.now firstDraw.seed firstDraw.data runChain0 ≠
        some (.error fault, bc1)) :=
  ⟨rfl, first_run,
    addBlock_fails_exactly_on_empty_chain.2 2 firstDraw.now firstDraw.seed firstDraw.data
      runChain0 genesisBlock firstBlock rfl first_run⟩

/-- C9: a returning `AddBlock` adds exactly one block, keeps every block stored before at its
    index (the old block sequence is a prefix of the new one), and the new last block has the
    given payload as `Data`. -/
theorem addBlock_appends_one_block (fuel : Nat) (now seed : Int) (data : Bytes)
    (bc bc1 : BlockChain) (h : AddBlock fuel now seed data bc = some (.ok (), bc1)) :
    bc.blocks ≠ [] ∧
    bc1.blocks.length = bc.blocks.length + 1 ∧
    bc.blocks <+: bc1.blocks ∧
    (∀ i : Nat, i < bc.blocks.length → bc1.blocks[i]? = bc.blocks[i]?) ∧
    ∃ newBlock, bc1.blocks.getLast? = some newBlock ∧ newBlock.Data = data := by
  obtain ⟨prevBlock, newBlock, hlast, hn, rfl⟩ := addBlock_ok _ _ _ _ _ _ h
  refine ⟨?_, by simp, List.prefix_append _ _, ?_, newBlock, by simp, ?_⟩
  · intro hnil
    rw [hnil] at hlast
    simp at hlast
  · intro i hi
    exact List.getElem?_append_left hi
  · exact (newBlock_fields _ _ _ _ _ _ hn).2.1

theorem addBlock_appends_one_block_witness :
    AddBlock 2 firstDraw.now firstDraw.seed firstDraw.data runChain0 = some (.ok (), runChain1) ∧
    (runChain0.blocks ≠ [] ∧
    runChain1.blocks.length = runChain0.blocks.length + 1 ∧
    runChain0.blocks <+: runChain1.blocks ∧
    (∀ i : Nat, i < runChain0.blocks.length → runChain1.blocks[i]? = runChain0.blocks[i]?) ∧
    ∃ newBlock, runChain1.blocks.getLast? = some newBlock ∧ newBlock.Data = firstDraw.data) :=
  ⟨addBlock_first_run,
    addBlock_appends_one_block 2 firstDraw.now firstDraw.seed firstDraw.data runChain0 runChain1
      addBlock_first_run⟩

/-- C10: when `NewBlock` returns, the nonce of the block is `seed + k` in `int32` arithmetic
    for the least count `k` of increments at which the digest of the block with nonce
    `seed + k` satisfies `IsValidHashDifficulty`: the digest of every nonce tried before fails
    it, and `CheckProofOfWork` holds on the returned block. -/
theorem newBlock_nonce_is_first_that_meets_difficulty (fuel : Nat) (now seed : Int)
    (data prevHash : Bytes) (b : Block) (hseed : isInt32 seed)
    (h : NewBlock fuel now seed data prevHash = some b) :
    ∃ k : Nat, k < fuel ∧ b = candidate now seed data prevHash k ∧
      b.Nonce = wrapInt32 (seed + k) ∧
      IsValidHashDifficulty (Digest now (wrapInt32 (seed + k)) data prevHash) = true ∧
      (∀ j : Nat, j < k →
        IsValidHashDifficulty (Digest now (wrapInt32 (seed + j)) data prevHash) = false) ∧
      CheckProofOfWork b = true := by
  rw [newBlock_eq_mine] at h
  obtain ⟨k, hk, hr, hpass, hfail⟩ := mine_some fuel _ b h
  rw [iterate_incrNonce now seed data prevHash hseed k] at hr
  refine ⟨k, hk, hr, by rw [hr]; rfl, ?_, ?_, hpass⟩
  · rw [hr, checkProofOfWork_eq, generateHash_eq_digest] at hpass
    exact hpass
  · intro j hj
    have hf := hfail j hj
    rw [iterate_incrNonce now seed data prevHash hseed j, checkProofOfWork_eq,
      generateHash_eq_digest] at hf
    exact hf

theorem newBlock_nonce_is_first_that_meets_difficulty_witness :
    isInt32 secondDraw.seed ∧
    NewBlock 2 secondDraw.now secondDraw.seed secondDraw.data firstBlock.Hash =
      some secondBlock ∧
    ∃ k : Nat, k < 2 ∧
      secondBlock = candidate secondDraw.now secondDraw.seed secondDraw.data firstBlock.Hash k ∧
      secondBlock.Nonce = wrapInt32 (secondDraw.seed + k) ∧
      IsValidHashDifficulty
        (Digest secondDraw.now (wrapInt32 (secondDraw.seed + k)) secondDraw.data
          firstBlock.Hash) = true ∧
      (∀ j : Nat, j < k →
        IsValidHashDifficulty
          (Digest secondDraw.now (wrapInt32 (secondDraw.seed + j)) secondDraw.data
            firstBlock.Hash) = false) ∧
      CheckProofOfWork secondBlock = true :=
  ⟨by decide, second_run,
    newBlock_nonce_is_first_that_meets_difficulty 2 secondDraw.now secondDraw.seed
      secondDraw.data firstBlock.Hash secondBlock (by decide) second_run⟩

/-- C11, evaluated on the run: the chain of `main` after the genesis block is placed in
    `blocks` has an empty `currentBlock`, not the stored hash of its last block, because `main`
    appends the genesis block without assigning `currentBlock`; and after the two `AddBlock`
    calls `currentBlock` is the stored hash of the last block, which is not the digest of that
    block. -/
theorem genesisChain_currentBlock_is_not_last_hash :
    genesisChain 2 genesisDraw = some runChain0 ∧
    runChain0.blocks.getLast? = some genesisBlock ∧
    runChain0.currentBlock = [] ∧
    runChain0.currentBlock ≠ genesisBlock.Hash ∧
    mainChain 2 genesisDraw firstDraw secondDraw = some runChain2 ∧
    runChain2.blocks.getLast? = some secondBlock ∧
    runChain2.currentBlock = secondBlock.Hash ∧
    runChain2.currentBlock ≠ GenerateHash secondBlock := by
  refine ⟨genesisChain_run, rfl, rfl, by decide, mainChain_run, rfl, rfl, ?_⟩
  rw [secondBlock_digest]
  decide

/-- C12: two blocks that agree on `Timestamp`, `Nonce`, `Data` and `PrevBlockHash` have the same
    `GenerateHash`, whatever their stored `Hash` fields hold; `GenerateHash` does not read the
    `Hash` field, and as a function from the block to a byte sequence it leaves the block as it
    is. -/
theorem generateHash_ignores_stored_hash (b1 b2 : Block)
    (hT : b1.Timestamp = b2.Timestamp) (hN : b1.Nonce = b2.Nonce) (hD : b1.Data = b2.Data)
    (hP : b1.PrevBlockHash = b2.PrevBlockHash) :
    GenerateHash b1 = GenerateHash b2 ∧
    ∀ h : Bytes, GenerateHash { b1 with Hash := h } = GenerateHash b1 := by
  refine ⟨?_, fun h => rfl⟩
  simp only [GenerateHash, hT, hN, hD, hP]

theorem generateHash_ignores_stored_hash_witness :
    genesisBlock.Hash ≠ blankedGenesis.Hash ∧
    (GenerateHash genesisBlock = GenerateHash blankedGenesis ∧
      ∀ h : Bytes, GenerateHash { genesisBlock with Hash := h } = GenerateHash genesisBlock) :=
  ⟨by decide, generateHash_ignores_stored_hash genesisBlock blankedGenesis rfl rfl rfl rfl⟩

/-- C13: `Valid` tests the difficulty of the stored hashes and nothing else: two chains with
    the same sequence of stored `Hash` values have the same `Valid` result, whatever their other
    fields hold. There is a chain with broken linkage on which `Valid` returns true, and a chain
    whose block was mined, then had a byte of its payload changed without mining again, so that
    the stored hash is no longer the digest of the block, on which `Valid` returns true. -/
theorem valid_reads_only_stored_hashes :
    (∀ bc1 bc2 : BlockChain,
      bc1.blocks.map Block.Hash = bc2.blocks.map Block.Hash → Valid bc1 = Valid bc2) ∧
    (¬ Linked unlinkedChain.blocks ∧ Valid unlinkedChain = true) ∧
    (NewBlock 1 1700000001 1781018481 genesisData [] = some settledGenesis ∧
      alteredGenesis.Data ≠ settledGenesis.Data ∧
      alteredGenesis.Hash = settledGenesis.Hash ∧
      GenerateHash alteredGenesis ≠ alteredGenesis.Hash ∧
      Valid alteredChain = true) := by
  refine ⟨?_, ⟨?_, by decide⟩, settled_run, by decide, rfl, ?_, by decide⟩
  · intro bc1 bc2 h
    unfold Valid
    rw [validLoop_eq_all, validLoop_eq_all, h]
  · intro hl
    have h1 := hl 1 (by decide) (by decide)
    exact absurd h1 (by decide)
  · rw [alteredGenesis_digest]
    decide

/-- C14: when `NewBlock` returns, the `Timestamp`, `Data` and `PrevBlockHash` of the block are
    the clock reading, the payload and the previous hash it was created with: the loop changes
    the nonce only. A genesis block, created with an empty previous hash, has a `PrevBlockHash`
    of length zero. -/
theorem newBlock_changes_only_nonce (fuel : Nat) (now seed : Int) (data prevHash : Bytes)
    (b : Block) (h : NewBlock fuel now seed data prevHash = some b) :
    b.Timestamp = now ∧ b.Data = data ∧ b.PrevBlockHash = prevHash ∧
    (prevHash = [] → b.PrevBlockHash.length = 0) := by
  obtain ⟨hT, hD, hP, _⟩ := newBlock_fields fuel now seed data prevHash b h
  refine ⟨hT, hD, hP, fun he => ?_⟩
  rw [hP, he]
  rfl

theorem newBlock_changes_only_nonce_witness :
    NewBlock 2 genesisDraw.now genesisDraw.seed genesisDraw.data [] = some genesisBlock ∧
    (genesisBlock.Timestamp = genesisDraw.now ∧ genesisBlock.Data = genesisDraw.data ∧
      genesisBlock.PrevBlockHash = [] ∧
      (([] : Bytes) = [] → genesisBlock.PrevBlockHash.length = 0)) :=
  ⟨genesis_run,
    newBlock_changes_only_nonce 2 genesisDraw.now genesisDraw.seed genesisDraw.data []
      genesisBlock genesis_run⟩

/-- C15: the `int32` increment wraps from 2147483647 to -2147483648, so the loop visits every
    `int32` nonce within `2^32 - 1` increments of the seed. If the digest of some `int32` nonce
    satisfies `IsValidHashDifficulty`, the loop of `NewBlock` ends after a count `k` of
    increments below `2^32`: every fuel above `k` returns the block with nonce `seed + k`, and
    no fuel up to `k` returns. If the digest of no `int32` nonce satisfies it, no fuel makes
    `NewBlock` return. -/
theorem newBlock_ends_iff_some_int32_nonce_meets_difficulty (now seed : Int)
    (data prevHash : Bytes) (hseed : isInt32 seed) :
    wrapInt32 (2147483647 + 1) = -2147483648 ∧
    ((∃ n : Int, isInt32 n ∧ IsValidHashDifficulty (Digest now n data prevHash) = true) →
      ∃ (k : Nat) (b : Block), k < 4294967296 ∧ b.Nonce = wrapInt32 (seed + k) ∧
        (∀ fuel : Nat, k < fuel → NewBlock fuel now seed data prevHash = some b) ∧
        (∀ fuel : Nat, fuel ≤ k → NewBlock fuel now seed data prevHash = none)) ∧
    ((∀ n : Int, isInt32 n → IsValidHashDifficulty (Digest now n data prevHash) = false) →
      ∀ fuel : Nat, NewBlock fuel now seed data prevHash = none) := by
  refine ⟨by decide, ?_, ?_⟩
  · rintro ⟨n, hn, hvalid⟩
    obtain ⟨k0, hk0, hreach⟩ := wrapInt32_reaches seed n hn
    have h0 : CheckProofOfWork (candidate now seed data prevHash k0) = true := by
      rw [checkProofOfWork_candidate, hreach]
      exact hvalid
    obtain ⟨k, hk, hret, hrun⟩ := newBlock_of_some_pass now seed data prevHash hseed k0 h0
    exact ⟨k, candidate now seed data prevHash k, by omega, rfl, hret, hrun⟩
  · intro hnone fuel
    cases hr : NewBlock fuel now seed data prevHash with
    | none => rfl
    | some r =>
      rw [newBlock_eq_mine] at hr
      obtain ⟨k, _, hrk, hpass, _⟩ := mine_some fuel _ r hr
      rw [hrk, iterate_incrNonce now seed data prevHash hseed, checkProofOfWork_candidate,
        hnone _ (isInt32_wrapInt32 _)] at hpass
      exact Bool.noConfusion hpass

theorem newBlock_ends_iff_some_int32_nonce_meets_difficulty_witness :
    isInt32 genesisDraw.seed ∧
    (∃ n : Int, isInt32 n ∧
      IsValidHashDifficulty (Digest genesisDraw.now n genesisDraw.data []) = true) ∧
    ∃ (k : Nat) (b : Block), k < 4294967296 ∧ b.Nonce = wrapInt32 (genesisDraw.seed + k) ∧
      (∀ fuel : Nat, k < fuel →
        NewBlock fuel genesisDraw.now genesisDraw.seed genesisDraw.data [] = some b) ∧
      (∀ fuel : Nat, fuel ≤ k →
        NewBlock fuel genesisDraw.now genesisDraw.seed genesisDraw.data [] = none) :=
  ⟨by decide, ⟨1781018481, by decide, genesis_winning_digest⟩,
    (newBlock_ends_iff_some_int32_nonce_meets_difficulty genesisDraw.now genesisDraw.seed
      genesisDraw.data [] (by decide)).2.1 ⟨1781018481, by decide, genesis_winning_digest⟩⟩

/-- C16: when `NewBlock` returns, the stored `Hash` of the block is the digest computed once,
    with the seed as nonce: `Hash == Digest(timestamp, seed, payload, prevHash)`, however many
    times the loop has incremented the nonce; no count of increments changes the `Hash` field. -/
theorem newBlock_stored_hash_is_digest_of_seed (fuel : Nat) (now seed : Int)
    (data prevHash : Bytes) (b : Block) (h : NewBlock fuel now seed data prevHash = some b) :
    b.Hash = Digest now seed data prevHash ∧
    ∀ k : Nat, (incrNonce^[k] (startBlock now seed data prevHash)).Hash =
      Digest now seed data prevHash := by
  constructor
  · rw [(newBlock_fields fuel now seed data prevHash b h).2.2.2]
    exact startBlock_hash now seed data prevHash
  · intro k
    rw [incrNonce_iterate_hash]
    exact startBlock_hash now seed data prevHash

theorem newBlock_stored_hash_is_digest_of_seed_witness :
    NewBlock 2 firstDraw.now firstDraw.seed firstDraw.data genesisBlock.Hash =
      some firstBlock ∧
    firstBlock.Nonce ≠ firstDraw.seed ∧
    (firstBlock.Hash = Digest firstDraw.now firstDraw.seed firstDraw.data genesisBlock.Hash ∧
      ∀ k : Nat,
        (incrNonce^[k]
          (startBlock firstDraw.now firstDraw.seed firstDraw.data genesisBlock.Hash)).Hash =
          Digest firstDraw.now firstDraw.seed firstDraw.data genesisBlock.Hash) :=
  ⟨first_run, by decide,
    newBlock_stored_hash_is_digest_of_seed 2 firstDraw.now firstDraw.seed firstDraw.data
      genesisBlock.Hash firstBlock first_run⟩

/-- C17: the string hashed by `GenerateHash` does not determine the fields of the block. The
    blocks with `Timestamp` 1 and `Nonce` 23 and with `Timestamp` 12 and `Nonce` 3, on the same
    `Data` and `PrevBlockHash`, are different blocks with the same hashed string, hence the same
    `GenerateHash`; so are the blocks with `Data` `ab` and an empty `PrevBlockHash` and with
    `Data` `a` and `PrevBlockHash` `b`. The arguments of `Block.mk` are `Timestamp`, `Data`,
    `PrevBlockHash`, `Hash`, `Nonce`. -/
theorem hashInput_is_not_injective :
    (∀ b : Block, GenerateHash b = SHA256.Sum256 (hashInput b)) ∧
    (∀ data prevHash hash : Bytes,
      Block.mk 1 data prevHash hash 23 ≠ Block.mk 12 data prevHash hash 3 ∧
      hashInput (Block.mk 1 data prevHash hash 23) =
        hashInput (Block.mk 12 data prevHash hash 3) ∧
      GenerateHash (Block.mk 1 data prevHash hash 23) =
        GenerateHash (Block.mk 12 data prevHash hash 3)) ∧
    (∀ (timestamp nonce : Int) (hash : Bytes),
      Block.mk timestamp [0x61, 0x62] [] hash nonce ≠ Block.mk timestamp [0x61] [0x62] hash nonce ∧
      hashInput (Block.mk timestamp [0x61, 0x62] [] hash nonce) =
        hashInput (Block.mk timestamp [0x61] [0x62] hash nonce) ∧
      GenerateHash (Block.mk timestamp [0x61, 0x62] [] hash nonce) =
        GenerateHash (Block.mk timestamp [0x61] [0x62] hash nonce)) := by
  have hdec : FormatInt 1 ++ FormatInt 23 = FormatInt 12 ++ FormatInt 3 := by decide
  refine ⟨fun b => rfl, fun data prevHash hash => ?_, fun timestamp nonce hash => ?_⟩
  · have hin : hashInput (Block.mk 1 data prevHash hash 23) =
        hashInput (Block.mk 12 data prevHash hash 3) := by
      simp only [hashInput, hdec]
    refine ⟨?_, hin, ?_⟩
    · intro heq
      have ht := congrArg Block.Timestamp heq
      simp at ht
    · rw [generateHash_eq_sum256_hashInput, generateHash_eq_sum256_hashInput, hin]
  · have hin : hashInput (Block.mk timestamp [0x61, 0x62] [] hash nonce) =
        hashInput (Block.mk timestamp [0x61] [0x62] hash nonce) := by
      simp [hashInput]
    refine ⟨?_, hin, ?_⟩
    · intro heq
      have hd := congrArg Block.PrevBlockHash heq
      simp at hd
    · rw [generateHash_eq_sum256_hashInput, generateHash_eq_sum256_hashInput, hin]

end Blockchain
